import Mathlib

/-!
# Employee store of `main.go`: a shallow embedding

The Go program keeps three package-level variables: the map `employeeStore`, the mutex
`storeMutex` and the counter `idCounter`.  Every store function locks the mutex for its whole
body, so a call is one atomic transition; the embedding is sequential and passes the pair
(map, counter) explicitly.

* Go `int` is the 64-bit two's-complement integer (amd64, arm64).  A value is an `Int`;
  `wrapInt` reduces an arithmetic result into the representable range, as Go does silently.
* Go `map[int]Employee` is a finite map with pairwise distinct keys: `AList`.
  `m[k] = v` is `AList.insert`, `delete(m, k)` is `AList.erase`, `v, ok := m[k]` is
  `AList.lookup`, `len(m)` is the number of entries.  The order in which `range` visits a
  map is unspecified, so a `range` result is any permutation of the entries.
* `float64` is only copied by the program, never computed with; its type is the parameter `F`.
* `*Employee` is `Option (Employee F)`; `none` is the nil pointer.
* A runtime panic is the error side of `Except Panic`; a Go `error` value is its message.
-/

namespace EmployeeStore

/-! ## Go `int` -/

/-- Smallest Go `int`. -/
def minInt : Int := -2 ^ 63

/-- Largest Go `int`. -/
def maxInt : Int := 2 ^ 63 - 1

/-- Two's-complement reduction of an integer result to 64 bits. -/
def wrapInt (x : Int) : Int := (x + 2 ^ 63) % 2 ^ 64 - 2 ^ 63

/-- Membership in the range of Go `int`. -/
def InInt (x : Int) : Prop := minInt ≤ x ∧ x ≤ maxInt

instance (x : Int) : Decidable (InInt x) :=
  inferInstanceAs (Decidable (minInt ≤ x ∧ x ≤ maxInt))

/-! ## Data model -/

deriving instance DecidableEq for Except

/-- Source: `type Employee struct`. -/
structure Employee (F : Type) where
  Id : Int
  Name : String
  Position : String
  Salary : F
deriving DecidableEq

/-- Runtime panics the program can raise. -/
inductive Panic where
  /-- Field access through a nil `*Employee`. -/
  | nilPointerDereference
  /-- Slice expression with bounds outside `0 <= low <= high <= cap`. -/
  | sliceBoundsOutOfRange
deriving DecidableEq

/-- Source: the package-level variables `employeeStore` and `idCounter`. -/
structure Store (F : Type) where
  employeeStore : AList (fun _ : Int => Employee F)
  idCounter : Int

variable {F : Type}

/-- Source: the initialisers `make(map[int]Employee)` and `idCounter = 1`. -/
def Store.initial : Store F := { employeeStore := ∅, idCounter := 1 }

/-- Source: `errors.New("employee not found")`. -/
def errNotFound : String := "employee not found"

/-! ## Store operations -/

/-- Source: `func CreateEmployee(empDetail *Employee) Employee`.  Reading `empDetail.Name`
through a nil pointer panics before anything is written. -/
def CreateEmployee (empDetail : Option (Employee F)) (s : Store F) :
    Except Panic (Employee F × Store F) :=
  match empDetail with
  | none => .error .nilPointerDereference
  | some d =>
    let employee : Employee F :=
      { Id := s.idCounter, Name := d.Name, Position := d.Position, Salary := d.Salary }
    .ok (employee,
      { employeeStore := s.employeeStore.insert s.idCounter employee,
        idCounter := wrapInt (s.idCounter + 1) })

/-- Source: `func GetEmployeeByID(id int) (Employee, error)`.  On the error side Go also
returns the zero `Employee`, which carries no information. -/
def GetEmployeeByID (id : Int) (s : Store F) : Except String (Employee F) :=
  match s.employeeStore.lookup id with
  | some employee => .ok employee
  | none => .error errNotFound

/-- Source: `func DeleteEmployee(id int) error`. -/
def DeleteEmployee (id : Int) (s : Store F) : Except String Unit × Store F :=
  match s.employeeStore.lookup id with
  | some _ => (.ok (), { s with employeeStore := s.employeeStore.erase id })
  | none => (.error errNotFound, s)

/-- Source: `func UpdateEmployee(emp *Employee) (Employee, error)`. -/
def UpdateEmployee (emp : Option (Employee F)) (s : Store F) :
    Except Panic (Except String (Employee F) × Store F) :=
  match emp with
  | none => .error .nilPointerDereference
  | some e =>
    match s.employeeStore.lookup e.Id with
    | some employee =>
      let employee : Employee F :=
        { employee with Name := e.Name, Position := e.Position, Salary := e.Salary }
      .ok (.ok employee, { s with employeeStore := s.employeeStore.insert e.Id employee })
    | none => .ok (.error errNotFound, s)

/-! ## Sequences of calls -/

/-- One call of a store function with its argument. -/
inductive Call (F : Type) where
  | Create (empDetail : Option (Employee F))
  | GetByID (id : Int)
  | Delete (id : Int)
  | Update (emp : Option (Employee F))

/-- Store after one call.  A call that panics has written nothing (the deferred unlock still
runs), so the store is the one before the call. -/
def Call.next (c : Call F) (s : Store F) : Store F :=
  match c with
  | .Create empDetail =>
    match CreateEmployee empDetail s with
    | .ok (_, s') => s'
    | .error _ => s
  | .GetByID _ => s
  | .Delete id => (DeleteEmployee id s).2
  | .Update emp =>
    match UpdateEmployee emp s with
    | .ok (_, s') => s'
    | .error _ => s

/-- Identifier handed back by the call, when the call is a `CreateEmployee` that returns. -/
def Call.createdId (c : Call F) (s : Store F) : Option Int :=
  match c with
  | .Create empDetail =>
    match CreateEmployee empDetail s with
    | .ok (employee, _) => some employee.Id
    | .error _ => none
  | _ => none

/-- Store after a sequence of calls, oldest first. -/
def run : List (Call F) → Store F → Store F
  | [], s => s
  | c :: cs, s => run cs (c.next s)

/-- Identifiers returned by the `CreateEmployee` calls of a sequence, oldest first. -/
def createdIds : List (Call F) → Store F → List Int
  | [], _ => []
  | c :: cs, s => (c.createdId s).toList ++ createdIds cs (c.next s)

/-- Number of `CreateEmployee` calls of a sequence that receive a non-nil pointer. -/
def createCount : List (Call F) → Nat
  | [] => 0
  | .Create (some _) :: cs => createCount cs + 1
  | _ :: cs => createCount cs

/-- What a handler writes to the `http.ResponseWriter`. -/
inductive Response (F : Type) where
  /-- Source: `sendError(w, message, statusCode)`. -/
  | sendError (message : String) (statusCode : Nat)
  /-- Source: `json.NewEncoder(w).Encode(emp)`. -/
  | employee (emp : Employee F)
  /-- Source: `json.NewEncoder(w).Encode` of a slice of employees. -/
  | employees (emps : List (Employee F))
  /-- The handler returned without writing. -/
  | nothing
deriving DecidableEq

/-- Source: the slice expression `xs[low:high]` on a slice whose capacity equals its length. -/
def sliceExpr {α : Type} (xs : List α) (low high : Int) : Except Panic (List α) :=
  if 0 ≤ low ∧ low ≤ high ∧ high ≤ (xs.length : Int) then
    .ok ((xs.drop low.toNat).take (high.toNat - low.toNat))
  else
    .error .sliceBoundsOutOfRange

/-- The slices the loop `for _, emp := range employeeStore` can build: every entry of the
map once, in any order. -/
def RangeOf (s : Store F) (employees : List (Employee F)) : Prop :=
  employees.Perm (s.employeeStore.entries.map Sigma.snd)

/-- Source: `func CreateEmployeeHandler`.  `method` is `r.Method`; `decoded` is the outcome
of `Json.Decode(&empDetail)`: an error message, or the pointer left in `empDetail`. -/
def CreateEmployeeHandler (method : String) (decoded : Except String (Option (Employee F)))
    (s : Store F) : Except Panic (Response F × Store F) :=
  if method ≠ "POST" then
    .ok (.sendError "method not allow" 405, s)
  else
    match decoded with
    | .error _ => .ok (.nothing, s)
    | .ok empDetail =>
      match CreateEmployee empDetail s with
      | .error p => .error p
      | .ok (emp, s') => .ok (.employee emp, s')

/-- Source: `start := (page - 1) * limit`, on Go `int`. -/
def windowStart (page limit : Int) : Int := wrapInt (wrapInt (page - 1) * limit)

/-- Source: `end := start + limit`, on Go `int`. -/
def windowEnd (page limit : Int) : Int := wrapInt (windowStart page limit + limit)

/-- Source: `func ListEmployeeHandler`.  `method` is `r.Method`; `pageArg` and `limitArg` are
the outcomes of `strconv.Atoi` on the query parameters `page` and `limit` (an absent
parameter reads as the empty string, on which `Atoi` fails); `employees` is the slice built
by the `range` loop, one of the lists `RangeOf` admits for the current store.  The handler
only reads the store, so it returns no new store. -/
def ListEmployeeHandler (method : String) (pageArg limitArg : Except String Int)
    (employees : List (Employee F)) : Except Panic (Response F) :=
  if method ≠ "GET" then
    .ok (.sendError "method not allow" 405)
  else
    match pageArg with
    | .error err => .ok (.sendError err 400)
    | .ok page =>
      match limitArg with
      | .error err => .ok (.sendError err 400)
      | .ok limit =>
        let start := windowStart page limit
        let stop := windowEnd page limit
        if start ≥ (employees.length : Int) then
          .ok (.employees [])
        else
          let stop := if stop > (employees.length : Int) then (employees.length : Int) else stop
          match sliceExpr employees start stop with
          | .error p => .error p
          | .ok window => .ok (.employees window)

/-! ## Sample data -/

/-- A create request body. -/
def ann : Employee Nat := { Id := 0, Name := "Ann", Position := "Eng", Salary := 1000 }

/-- A second create request body. -/
def bob : Employee Nat := { Id := 0, Name := "Bob", Position := "Ops", Salary := 2000 }

/-- Store after creating two records. -/
def twoRecords : Store Nat :=
  run [.Create (some ann), .Create (some bob)] Store.initial

/-- Store after creating five records. -/
def fiveRecords : Store Nat :=
  run (List.replicate 5 (.Create (some ann))) Store.initial

/-! ## Facts about `wrapInt` -/

theorem wrapInt_of_inInt {x : Int} (h : InInt x) : wrapInt x = x := by
  unfold InInt minInt maxInt at h
  unfold wrapInt
  omega

theorem inInt_wrapInt (x : Int) : InInt (wrapInt x) := by
  unfold InInt minInt maxInt wrapInt
  omega

theorem wrapInt_wrapInt_add (a b : Int) : wrapInt (wrapInt a + b) = wrapInt (a + b) := by
  unfold wrapInt
  omega

theorem inInt_initial : InInt (Store.initial : Store F).idCounter :=
  show InInt 1 by decide

/-! ## Single calls -/

/-- C2: in every store state, `CreateEmployee` on submitted details returns a record `e`
carrying the counter value before the call as `Id` and the submitted `Name`, `Position` and
`Salary`, and `GetEmployeeByID e.Id` on the resulting store succeeds and returns `e`. -/
theorem create_then_get (s : Store F) (d : Employee F) :
    ∃ e s', CreateEmployee (some d) s = .ok (e, s') ∧
      e.Id = s.idCounter ∧ e.Name = d.Name ∧ e.Position = d.Position ∧ e.Salary = d.Salary ∧
      GetEmployeeByID e.Id s' = .ok e := by
  refine ⟨_, _, rfl, rfl, rfl, rfl, rfl, ?_⟩
  simp [GetEmployeeByID, AList.lookup_insert]

/-- C3: in every store state and for every `id`, after `DeleteEmployee id` (found or not)
`GetEmployeeByID id` fails with the not-found error, and `GetEmployeeByID j` for every other
`j` returns what it returned before the delete. -/
theorem delete_then_get (s : Store F) (id : Int) :
    GetEmployeeByID id (DeleteEmployee id s).2 = .error errNotFound ∧
      ∀ j, j ≠ id → GetEmployeeByID j (DeleteEmployee id s).2 = GetEmployeeByID j s := by
  unfold DeleteEmployee
  cases h : s.employeeStore.lookup id with
  | none => exact ⟨by simp [GetEmployeeByID, h], fun _ _ => rfl⟩
  | some e =>
    refine ⟨by simp [GetEmployeeByID, AList.lookup_erase], fun j hj => ?_⟩
    simp [GetEmployeeByID, AList.lookup_erase_ne hj]

/-- Scenario of C3: after creating two records (ids 1 and 2), `Delete(1)` makes `GetByID(1)`
fail with not-found while `GetByID(2)` still returns the second record. -/
theorem delete_then_get_witness :
    createdIds [.Create (some ann), .Create (some bob)] Store.initial = [1, 2] ∧
      GetEmployeeByID 1 (DeleteEmployee 1 twoRecords).2 = .error errNotFound ∧
      GetEmployeeByID 2 (DeleteEmployee 1 twoRecords).2 = .ok { bob with Id := 2 } :=
  ⟨by decide, (delete_then_get twoRecords 1).1,
    ((delete_then_get twoRecords 1).2 2 (by decide)).trans (by decide)⟩

/-- C4: in every store state, `UpdateEmployee` with a request whose id is not a key of the
map returns the not-found error and the very same store: map and counter are untouched. -/
theorem update_missing (s : Store F) (emp : Employee F) (h : emp.Id ∉ s.employeeStore) :
    UpdateEmployee (some emp) s = .ok (.error errNotFound, s) := by
  have h' : s.employeeStore.lookup emp.Id = none := AList.lookup_eq_none.mpr h
  simp [UpdateEmployee, h']

/-- Instance of C4: updating id 7 in the store holding ids 1 and 2. -/
theorem update_missing_witness :
    (7 : Int) ∉ twoRecords.employeeStore ∧
      UpdateEmployee (some { ann with Id := 7 }) twoRecords = .ok (.error errNotFound, twoRecords) :=
  ⟨by decide, update_missing twoRecords { ann with Id := 7 } (by decide)⟩

/-- C5: in every store state (reachable or not), `UpdateEmployee` with a request whose id is a
key returns the record now stored under that id; the record keeps the `Id` of the record stored
before and takes `Name`, `Position` and `Salary` from the request; records under other keys,
the set of keys and the counter are unchanged. -/
theorem update_existing (s : Store F) (emp old : Employee F)
    (h : s.employeeStore.lookup emp.Id = some old) :
    ∃ e s', UpdateEmployee (some emp) s = .ok (.ok e, s') ∧
      s'.employeeStore.lookup emp.Id = some e ∧
      e.Id = old.Id ∧ e.Name = emp.Name ∧ e.Position = emp.Position ∧ e.Salary = emp.Salary ∧
      (∀ j, j ≠ emp.Id → s'.employeeStore.lookup j = s.employeeStore.lookup j) ∧
      (∀ j, j ∈ s'.employeeStore ↔ j ∈ s.employeeStore) ∧
      s'.idCounter = s.idCounter := by
  have hmem : emp.Id ∈ s.employeeStore := AList.lookup_isSome.mp (by simp [h])
  simp only [UpdateEmployee, h]
  refine ⟨_, _, rfl, AList.lookup_insert _, rfl, rfl, rfl, rfl,
    fun j hj => AList.lookup_insert_ne hj, fun j => ?_, rfl⟩
  rw [AList.mem_insert]
  constructor
  · rintro (rfl | hj)
    · exact hmem
    · exact hj
  · exact Or.inr

/-- Instance of C5: updating id 2 in the store holding ids 1 and 2. -/
theorem update_existing_witness :
    twoRecords.employeeStore.lookup 2 = some { bob with Id := 2 } ∧
      ∃ e s', UpdateEmployee (some { ann with Id := 2 }) twoRecords = .ok (.ok e, s') ∧
        s'.employeeStore.lookup 2 = some e ∧
        e.Id = 2 ∧ e.Name = "Ann" ∧ e.Position = "Eng" ∧ e.Salary = 1000 ∧
        (∀ j, j ≠ 2 → s'.employeeStore.lookup j = twoRecords.employeeStore.lookup j) ∧
        (∀ j, j ∈ s'.employeeStore ↔ j ∈ twoRecords.employeeStore) ∧
        s'.idCounter = twoRecords.idCounter :=
  ⟨by decide, update_existing twoRecords { ann with Id := 2 } { bob with Id := 2 } (by decide)⟩

/-! ## Sequences of calls -/

theorem createCount_cons (c : Call F) (cs : List (Call F)) :
    createCount (c :: cs) = createCount [c] + createCount cs := by
  cases c with
  | Create empDetail => cases empDetail <;> simp [createCount, Nat.add_comm]
  | GetByID id => simp [createCount]
  | Delete id => simp [createCount]
  | Update emp => simp [createCount]

theorem createCount_replicate (n : Nat) (d : Employee F) :
    createCount (List.replicate n (Call.Create (some d))) = n := by
  induction n with
  | zero => rfl
  | succ n ih => simp [List.replicate_succ, createCount, ih]

theorem run_append (cs₁ cs₂ : List (Call F)) (s : Store F) :
    run (cs₁ ++ cs₂) s = run cs₂ (run cs₁ s) := by
  induction cs₁ generalizing s with
  | nil => rfl
  | cons c cs ih => exact ih (c.next s)

/-- A call other than a `CreateEmployee` on a non-nil pointer leaves the counter alone and
hands back no created identifier. -/
theorem next_of_createCount_zero (c : Call F) (s : Store F) (h : createCount [c] = 0) :
    (c.next s).idCounter = s.idCounter ∧ c.createdId s = none := by
  cases c with
  | Create empDetail =>
    cases empDetail with
    | none => exact ⟨rfl, rfl⟩
    | some d => simp [createCount] at h
  | GetByID id => exact ⟨rfl, rfl⟩
  | Delete id =>
    refine ⟨?_, rfl⟩
    simp only [Call.next, DeleteEmployee]
    cases s.employeeStore.lookup id <;> rfl
  | Update emp =>
    refine ⟨?_, rfl⟩
    cases emp with
    | none => rfl
    | some e =>
      simp only [Call.next, UpdateEmployee]
      cases s.employeeStore.lookup e.Id <;> rfl

/-- Either the call is a `CreateEmployee` on a non-nil pointer, or it does not count. -/
theorem createCount_single (c : Call F) :
    (∃ d, c = Call.Create (some d)) ∨ createCount [c] = 0 := by
  cases c with
  | Create empDetail =>
    cases empDetail with
    | none => exact Or.inr rfl
    | some d => exact Or.inl ⟨d, rfl⟩
  | GetByID id => exact Or.inr rfl
  | Delete id => exact Or.inr rfl
  | Update emp => exact Or.inr rfl

/-- The counter after a sequence of calls is the starting counter plus the number of creates,
reduced to 64 bits. -/
theorem run_idCounter (cs : List (Call F)) (s : Store F) (h : InInt s.idCounter) :
    (run cs s).idCounter = wrapInt (s.idCounter + (createCount cs : Nat)) := by
  induction cs generalizing s with
  | nil => simpa [run, createCount] using (wrapInt_of_inInt h).symm
  | cons c cs ih =>
    rw [run, createCount_cons]
    rcases createCount_single c with ⟨d, rfl⟩ | h0
    · have hn : ((Call.Create (some d)).next s).idCounter = wrapInt (s.idCounter + 1) := rfl
      rw [ih _ (hn ▸ inInt_wrapInt _), hn, wrapInt_wrapInt_add]
      simp [createCount, add_assoc]
    · have hn := (next_of_createCount_zero c s h0).1
      rw [ih _ (hn ▸ h), hn, h0]
      simp

/-- The identifiers handed out by a sequence of calls are the successive counter values. -/
theorem createdIds_eq (cs : List (Call F)) (s : Store F) (h : InInt s.idCounter) :
    createdIds cs s
      = (List.range (createCount cs)).map (fun i : Nat => wrapInt (s.idCounter + (i : Int))) := by
  induction cs generalizing s with
  | nil => rfl
  | cons c cs ih =>
    rw [createdIds, createCount_cons]
    rcases createCount_single c with ⟨d, rfl⟩ | h0
    · have hn : ((Call.Create (some d)).next s).idCounter = wrapInt (s.idCounter + 1) := rfl
      have hid : (Call.Create (some d)).createdId s = some s.idCounter := rfl
      rw [ih _ (hn ▸ inInt_wrapInt _), hn, hid]
      have h1 : createCount [Call.Create (some d)] = 1 := rfl
      rw [h1, Nat.add_comm, List.range_succ_eq_map, List.map_cons, List.map_map]
      simp only [Option.toList, List.singleton_append, Nat.cast_zero, add_zero,
        wrapInt_of_inInt h]
      congr 1
      apply List.map_congr_left
      intro i _
      simp only [Function.comp, wrapInt_wrapInt_add, Nat.cast_succ]
      congr 1
      ring
    · obtain ⟨hn, hid⟩ := next_of_createCount_zero c s h0
      rw [ih _ (hn ▸ h), hn, hid, h0]
      simp [Option.toList]

/-- The capacity bound of `created_ids_increasing` is exact in the embedding: were 2^63 creates
to run, the counter would be the largest `int` after 2^63 - 1 of them and the next increment
would wrap, so the last identifier would lie below the first.  No process executes this
sequence. -/
theorem created_ids_wrap :
    ¬ (createdIds (List.replicate (2 ^ 63) (Call.Create (some ann)))
        Store.initial).Pairwise (· < ·) := by
  have hinit : InInt (Store.initial : Store Nat).idCounter := inInt_initial
  rw [createdIds_eq _ _ hinit, createCount_replicate]
  have h1 : (Store.initial : Store Nat).idCounter = 1 := rfl
  rw [h1, show (2 : ℕ) ^ 63 = (2 ^ 63 - 1) + 1 from by norm_num, List.range_succ,
    List.map_append, List.pairwise_append]
  rintro ⟨-, -, h⟩
  have h0 : wrapInt (1 + ((0 : ℕ) : Int)) ∈
      List.map (fun i : ℕ => wrapInt (1 + (i : Int))) (List.range (2 ^ 63 - 1)) :=
    List.mem_map.mpr ⟨0, List.mem_range.mpr (by norm_num), rfl⟩
  have := h _ h0 _ (List.mem_singleton.mpr rfl)
  revert this
  unfold wrapInt
  norm_num

/-- A create stores the new record under the counter value it found. -/
theorem run_create_lookup (s : Store F) (d : Employee F) :
    (run [Call.Create (some d)] s).employeeStore.lookup s.idCounter
      = some { d with Id := s.idCounter } :=
  AList.lookup_insert _

/-- The capacity bound of `reachable_records` is exact in the embedding: were 2^63 - 1 creates
to run, the record stored last would have the largest `int` as `Id` while the counter would
have wrapped to the smallest.  No process executes this sequence. -/
theorem reachable_counter_wrap :
    ¬ (∀ key rec,
        (run (List.replicate (2 ^ 63 - 1) (Call.Create (some ann)))
          Store.initial).employeeStore.lookup key = some rec →
        rec.Id = key ∧ 1 ≤ rec.Id ∧
          rec.Id < (run (List.replicate (2 ^ 63 - 1) (Call.Create (some ann)))
            Store.initial).idCounter) := by
  intro h
  have hc := run_idCounter (List.replicate (2 ^ 63 - 1) (Call.Create (some ann)))
    Store.initial inInt_initial
  rw [createCount_replicate] at hc
  have hsplit : List.replicate (2 ^ 63 - 1) (Call.Create (some ann))
      = List.replicate (2 ^ 63 - 2) (Call.Create (some ann)) ++ [Call.Create (some ann)] := by
    rw [show (2 : ℕ) ^ 63 - 1 = (2 ^ 63 - 2) + 1 from by norm_num, List.replicate_succ']
  have hp := run_idCounter (List.replicate (2 ^ 63 - 2) (Call.Create (some ann)))
    Store.initial inInt_initial
  rw [createCount_replicate] at hp
  have hl : (run (List.replicate (2 ^ 63 - 1) (Call.Create (some ann)))
      Store.initial).employeeStore.lookup (2 ^ 63 - 1) = some { ann with Id := 2 ^ 63 - 1 } := by
    rw [hsplit, run_append]
    have hv : (run (List.replicate (2 ^ 63 - 2) (Call.Create (some ann)))
        Store.initial).idCounter = 2 ^ 63 - 1 := by
      rw [hp]
      show wrapInt (1 + ((2 ^ 63 - 2 : ℕ) : Int)) = 2 ^ 63 - 1
      unfold wrapInt
      norm_num
    have hins := run_create_lookup
      (run (List.replicate (2 ^ 63 - 2) (Call.Create (some ann))) Store.initial) ann
    rw [hv] at hins
    exact hins
  have hlt := (h _ _ hl).2.2
  rw [hc] at hlt
  revert hlt
  show ¬ ((2 : Int) ^ 63 - 1 < wrapInt (1 + ((2 ^ 63 - 1 : ℕ) : Int)))
  unfold wrapInt
  norm_num

/-! ## The create handler -/

/-- C7 (failing input): a request body that decodes without error can leave the nil pointer
in `empDetail` (the JSON literal null does); `CreateEmployee` then reads `empDetail.Name`
through nil and panics, in every store state, and so does the handler that called it. -/
theorem create_nil_panics (s : Store F) :
    CreateEmployee none s = .error .nilPointerDereference ∧
      CreateEmployeeHandler "POST" (.ok none) s = .error .nilPointerDereference :=
  ⟨rfl, by simp [CreateEmployeeHandler, CreateEmployee]⟩

/-- On a non-nil pointer `CreateEmployee` returns a record in every store state, and the
handler answers with that record. -/
theorem create_some_returns (s : Store F) (d : Employee F) :
    ∃ e s', CreateEmployee (some d) s = .ok (e, s') ∧
      CreateEmployeeHandler "POST" (.ok (some d)) s = .ok (.employee e, s') :=
  ⟨_, _, rfl, by simp [CreateEmployeeHandler, CreateEmployee]⟩

/-! ## The list handler -/

/-- C6 (failing input): `page = 2^62 + 1` and `limit = 2` are Go `int` values, both at least
1.  The product `(page - 1) * limit` wraps to the smallest `int`; the negative `start` passes
both bounds tests the handler makes and the slice expression panics, whatever the store
holds, where C6 specifies a window of records. -/
theorem list_overflow_panics :
    InInt (2 ^ 62 + 1) ∧ (1 : Int) ≤ 2 ^ 62 + 1 ∧ InInt 2 ∧ (1 : Int) ≤ 2 ∧
      windowStart (2 ^ 62 + 1) 2 = minInt ∧
      ∀ employees : List (Employee Nat),
        ListEmployeeHandler "GET" (.ok (2 ^ 62 + 1)) (.ok 2) employees
          = .error .sliceBoundsOutOfRange := by
  refine ⟨by decide, by decide, by decide, by decide, by decide, fun employees => ?_⟩
  have h1 : windowStart (2 ^ 62 + 1) 2 = -9223372036854775808 := by decide
  have h2 : windowEnd (2 ^ 62 + 1) 2 = -9223372036854775806 := by decide
  have hlen : (0 : Int) ≤ (employees.length : Int) := Int.natCast_nonneg _
  simp only [ListEmployeeHandler, h1, h2, sliceExpr]
  have a1 : ¬ ((-9223372036854775808 : Int) ≥ (employees.length : Int)) := by omega
  have a2 : ¬ ((-9223372036854775806 : Int) > (employees.length : Int)) := by omega
  simp [a1, a2]

/-- C8 (failing input): `page = 0` and `limit = 1` both parse as integers, yet the handler
does not answer: `start` is -1, which passes both bounds tests, and the slice expression
panics, whatever the store holds. -/
theorem list_page_zero_panics :
    ∀ employees : List (Employee Nat),
      ListEmployeeHandler "GET" (.ok 0) (.ok 1) employees = .error .sliceBoundsOutOfRange := by
  intro employees
  have h1 : windowStart 0 1 = -1 := by decide
  have h2 : windowEnd 0 1 = 0 := by decide
  have hlen : (0 : Int) ≤ (employees.length : Int) := Int.natCast_nonneg _
  simp only [ListEmployeeHandler, h1, h2, sliceExpr]
  have a1 : ¬ ((-1 : Int) ≥ (employees.length : Int)) := by omega
  have a2 : ¬ ((0 : Int) > (employees.length : Int)) := by omega
  simp [a1, a2]

/-- The 400 answer of the list handler: a GET request is answered with status 400 exactly
when one of the two `Atoi` calls failed. -/
theorem list_bad_request_iff (pageArg limitArg : Except String Int)
    (employees : List (Employee F)) :
    (∃ msg, ListEmployeeHandler "GET" pageArg limitArg employees = .ok (.sendError msg 400))
      ↔ ((∃ err, pageArg = .error err) ∨ (∃ err, limitArg = .error err)) := by
  cases pageArg with
  | error e => simp [ListEmployeeHandler]
  | ok page =>
    cases limitArg with
    | error e => simp [ListEmployeeHandler]
    | ok limit =>
      simp only [ListEmployeeHandler]
      constructor
      · rintro ⟨msg, h⟩
        exfalso
        revert h
        simp only [ne_eq, not_true_eq_false, ite_false]
        split
        · simp
        · split <;> simp
      · rintro (⟨err, h⟩ | ⟨err, h⟩) <;> cases h

/-- The slice expression of the handler when `start` is a valid index and `end` lies above
it: entries `start`, `start + 1`, ... up to the clamped end. -/
theorem sliceExpr_window {α : Type} (xs : List α) (start stop : Int) (hm : 0 ≤ start)
    (hl : start ≤ stop) (hlt : start < (xs.length : Int)) :
    sliceExpr xs start (if stop > (xs.length : Int) then (xs.length : Int) else stop)
      = .ok ((xs.drop start.toNat).take (min stop (xs.length : Int) - start).toNat) := by
  unfold sliceExpr
  split_ifs with h1 h2 h3
  · congr 2
    omega
  · omega
  · congr 2
    omega
  · omega

/-- The list handler where its bounds tests suffice: for every store holding `n` records,
every order `employees` in which the `range` loop visits them, and all `page` and
`limit >= 1` for which `start` (computed as the code computes it) is not negative and
`start >= n` or `start + limit` fits a Go `int`, the handler answers with the contiguous
window of `employees` from index `start` up to `min end n`: empty when `start >= n`, otherwise
exactly `min limit (n - start)` records, each an entry of the store taken at most once. -/
theorem list_window (s : Store F) (employees : List (Employee F)) (hr : RangeOf s employees)
    (page limit : Int) (hl : 1 ≤ limit) (h0 : 0 ≤ windowStart page limit)
    (h1 : (s.employeeStore.entries.length : Int) ≤ windowStart page limit ∨
      windowStart page limit + limit ≤ maxInt) :
    ∃ window,
      ListEmployeeHandler "GET" (.ok page) (.ok limit) employees = .ok (.employees window) ∧
      window = (employees.drop (windowStart page limit).toNat).take
        (min (windowEnd page limit) (s.employeeStore.entries.length : Int)
          - windowStart page limit).toNat ∧
      ((s.employeeStore.entries.length : Int) ≤ windowStart page limit → window = []) ∧
      (windowStart page limit < (s.employeeStore.entries.length : Int) →
        (window.length : Int)
          = min limit ((s.employeeStore.entries.length : Int) - windowStart page limit)) ∧
      window.Subperm (s.employeeStore.entries.map Sigma.snd) := by
  have hn : employees.length = s.employeeStore.entries.length := by
    simpa using hr.length_eq
  rw [← hn] at h1 ⊢
  have hend : windowStart page limit < (employees.length : Int) →
      windowEnd page limit = windowStart page limit + limit := by
    intro hlt
    unfold windowEnd
    apply wrapInt_of_inInt
    unfold maxInt at h1
    unfold InInt minInt maxInt
    omega
  simp only [ListEmployeeHandler, ne_eq, not_true_eq_false, ite_false]
  generalize windowEnd page limit = stop at hend ⊢
  generalize windowStart page limit = start at h0 h1 hend ⊢
  refine ⟨(employees.drop start.toNat).take (min stop (employees.length : Int) - start).toNat,
    ?_, rfl, ?_, ?_, ?_⟩
  · by_cases hge : start ≥ (employees.length : Int)
    · rw [if_pos hge, List.drop_eq_nil_of_le (by omega), List.take_nil]
    · have hlt : start < (employees.length : Int) := by omega
      rw [if_neg hge, sliceExpr_window employees start stop h0 (by rw [hend hlt]; omega) hlt]
  · intro h
    rw [List.drop_eq_nil_of_le (by omega), List.take_nil]
  · intro h
    rw [List.length_take, List.length_drop, hend h]
    omega
  · exact ((List.take_sublist _ _).trans (List.drop_sublist _ _)).subperm.trans hr.subperm

set_option maxRecDepth 4000 in
theorem fiveRecords_length : fiveRecords.employeeStore.entries.length = 5 := by
  decide

/-- Scenario of the list handler: the store of five records, visited in the order of its entries.
`(page, limit) = (1, 2)` yields two records, `(3, 2)` yields one, `(10, 2)` yields none. -/
theorem list_window_witness :
    fiveRecords.employeeStore.entries.length = 5 ∧
    (∃ w, ListEmployeeHandler "GET" (.ok 1) (.ok 2)
        (fiveRecords.employeeStore.entries.map Sigma.snd) = .ok (.employees w) ∧
      w.length = 2) ∧
    (∃ w, ListEmployeeHandler "GET" (.ok 3) (.ok 2)
        (fiveRecords.employeeStore.entries.map Sigma.snd) = .ok (.employees w) ∧
      w.length = 1) ∧
    ListEmployeeHandler "GET" (.ok 10) (.ok 2)
        (fiveRecords.employeeStore.entries.map Sigma.snd) = .ok (.employees []) := by
  have h5 : fiveRecords.employeeStore.entries.length = 5 := fiveRecords_length
  have s1 : windowStart 1 2 = 0 := by decide
  have s3 : windowStart 3 2 = 4 := by decide
  have s10 : windowStart 10 2 = 18 := by decide
  obtain ⟨w1, hw1, -, -, hl1, -⟩ := list_window fiveRecords _ (List.Perm.refl _) 1 2
    (by decide) (by decide) (Or.inr (by decide))
  obtain ⟨w3, hw3, -, -, hl3, -⟩ := list_window fiveRecords _ (List.Perm.refl _) 3 2
    (by decide) (by decide) (Or.inr (by decide))
  obtain ⟨w10, hw10, -, he10, -, -⟩ := list_window fiveRecords _ (List.Perm.refl _) 10 2
    (by decide) (by decide) (Or.inr (by decide))
  rw [h5, s1] at hl1
  rw [h5, s3] at hl3
  rw [h5, s10] at he10
  refine ⟨h5, ⟨w1, hw1, ?_⟩, ⟨w3, hw3, ?_⟩, ?_⟩
  · have := hl1 (by norm_num)
    omega
  · have := hl3 (by norm_num)
    omega
  · rw [hw10, he10 (by norm_num)]

/-- When the window end `(page - 1) * limit + limit` fits a Go `int`, nothing wraps: `start`
and `end` are the mathematical values, and `start` is not negative. -/
theorem window_of_fits (page limit : Int) (hp : 1 ≤ page) (hl : 1 ≤ limit)
    (hb : (page - 1) * limit + limit ≤ maxInt) :
    windowStart page limit = (page - 1) * limit ∧
      windowEnd page limit = (page - 1) * limit + limit := by
  have hm0 : 0 ≤ (page - 1) * limit := mul_nonneg (by omega) (by omega)
  have hpm : page - 1 ≤ (page - 1) * limit := le_mul_of_one_le_right (by omega) hl
  unfold windowEnd windowStart
  generalize hmdef : (page - 1) * limit = m at hb hm0 hpm ⊢
  unfold maxInt at hb
  have w1 : wrapInt (page - 1) = page - 1 :=
    wrapInt_of_inInt (by unfold InInt minInt maxInt; omega)
  have w2 : wrapInt m = m := wrapInt_of_inInt (by unfold InInt minInt maxInt; omega)
  have w3 : wrapInt (m + limit) = m + limit :=
    wrapInt_of_inInt (by unfold InInt minInt maxInt; omega)
  rw [w1, hmdef, w2, w3]
  exact ⟨rfl, rfl⟩

/-- Everywhere else the list handler panics: for Go `int` values `page` and `limit >= 1`, when
`start` is negative, or `start < n` and `start + limit` exceeds the largest `int`, the slice
expression is reached with bounds it rejects. -/
theorem list_panics_outside_window (employees : List (Employee F)) (page limit : Int)
    (hl : 1 ≤ limit) (hlim : InInt limit)
    (h : windowStart page limit < 0 ∨
      (windowStart page limit < (employees.length : Int) ∧
        maxInt < windowStart page limit + limit)) :
    ListEmployeeHandler "GET" (.ok page) (.ok limit) employees
      = .error .sliceBoundsOutOfRange := by
  have hs : InInt (windowStart page limit) := inInt_wrapInt _
  have he : windowEnd page limit = wrapInt (windowStart page limit + limit) := rfl
  simp only [ListEmployeeHandler, ne_eq, not_true_eq_false, ite_false]
  generalize windowEnd page limit = stop at he ⊢
  generalize windowStart page limit = start at h hs he ⊢
  unfold InInt minInt maxInt at hs hlim
  unfold maxInt at h
  unfold wrapInt at he
  have hlen : (0 : Int) ≤ (employees.length : Int) := Int.natCast_nonneg _
  have hge : ¬ start ≥ (employees.length : Int) := by omega
  rw [if_neg hge]
  unfold sliceExpr
  split_ifs with h1 h2 <;> first | rfl | omega

end EmployeeStore
